import Mathlib

/-!
# Verification of the chunky-bevy chunk registry core

Shallow embedding of the chunk coordinate/registry subsystem of the
`chunky-bevy` repository (`src/lib.rs`, `src/chunk_loader.rs`).

Modelling choices:
* Rust `Vec3` (three `f32`) is embedded as a triple of rationals `ℚ`,
  so the floor/division arithmetic is exact.
* Rust `IVec3` (three `i32`) is embedded as a triple of integers `ℤ`.
* Bevy `Entity` is an opaque handle, embedded as `ℕ`.
* The `HashMap<IVec3, Entity>` inside `ChunkManager` is embedded as a
  function `IVec3 → Option ℕ` (total extensional map), which captures
  exactly the insert/remove/get/contains semantics used by the code.
* ECS systems (`chunk_loader`, hooks `on_add_chunk`, `on_add_chunk_pos`,
  the helpers `spawn_chunks_rect*`) are embedded as pure functions that
  return the list of spawned chunk coordinates / the updated manager /
  the computed translation, in the iteration order of the Rust loops.
-/

/-- Embedding of Bevy `Vec3` with exact rational components. -/
structure Vec3 where
  x : ℚ
  y : ℚ
  z : ℚ
deriving DecidableEq, Repr

/-- Embedding of Bevy `IVec3`. -/
structure IVec3 where
  x : ℤ
  y : ℤ
  z : ℤ
deriving DecidableEq, Repr

namespace IVec3

/-- `IVec3` componentwise addition (Rust `impl Add for IVec3`). -/
def add (a b : IVec3) : IVec3 := ⟨a.x + b.x, a.y + b.y, a.z + b.z⟩

instance : Add IVec3 := ⟨add⟩

/-- Rust `IVec3::as_vec3`: cast each component to a real (here: rational). -/
def as_vec3 (v : IVec3) : Vec3 := ⟨(v.x : ℚ), (v.y : ℚ), (v.z : ℚ)⟩

end IVec3

namespace Vec3

/-- Componentwise division (Rust `impl Div for Vec3`). -/
def div (a b : Vec3) : Vec3 := ⟨a.x / b.x, a.y / b.y, a.z / b.z⟩

instance : Div Vec3 := ⟨div⟩

/-- Componentwise multiplication (Rust `impl Mul for Vec3`). -/
def mul (a b : Vec3) : Vec3 := ⟨a.x * b.x, a.y * b.y, a.z * b.z⟩

instance : Mul Vec3 := ⟨mul⟩

/-- Rust `Vec3::floor`: componentwise floor, still real-valued. -/
def floor (v : Vec3) : Vec3 := ⟨(⌊v.x⌋ : ℚ), (⌊v.y⌋ : ℚ), (⌊v.z⌋ : ℚ)⟩

/-- Rust `as i32` cast semantics on a finite value: truncation toward zero. -/
def truncToZero (q : ℚ) : ℤ := if 0 ≤ q then ⌊q⌋ else ⌈q⌉

/-- Rust `Vec3::as_ivec3`: componentwise cast to integers, truncating toward
zero (the Rust `as i32` conversion). -/
def as_ivec3 (v : Vec3) : IVec3 := ⟨truncToZero v.x, truncToZero v.y, truncToZero v.z⟩

end Vec3

/-- Embedding of `ChunkManager` (src/lib.rs lines 279-283): the chunk size
and the `HashMap<IVec3, Entity>` of loaded chunks, the map embedded as a
total function to `Option`. -/
structure ChunkManager where
  chunk_size : Vec3
  chunks : IVec3 → Option ℕ

namespace ChunkManager

/-- `ChunkManager::new` (src/lib.rs lines 287-292): stores the given chunk
size and an empty map.  Note: the Rust constructor performs no validation
of `chunk_size` and is total. -/
def new (chunk_size : Vec3) : ChunkManager :=
  { chunk_size := chunk_size, chunks := fun _ => none }

/-- `ChunkManager::get_size` (src/lib.rs lines 295-297). -/
def get_size (m : ChunkManager) : Vec3 := m.chunk_size

/-- `ChunkManager::insert` (src/lib.rs lines 304-306): `HashMap::insert`
returns the previous occupant and stores the new one.  We return the pair
(previous occupant, updated manager). -/
def insert (m : ChunkManager) (pos : IVec3) (id : ℕ) : Option ℕ × ChunkManager :=
  (m.chunks pos,
   { m with chunks := fun p => if p = pos then some id else m.chunks p })

/-- `ChunkManager::remove` (src/lib.rs lines 313-315): `HashMap::remove`
returns the occupant if present and deletes the key. -/
def remove (m : ChunkManager) (pos : IVec3) : Option ℕ × ChunkManager :=
  (m.chunks pos,
   { m with chunks := fun p => if p = pos then none else m.chunks p })

/-- `ChunkManager::get_chunk_pos` (src/lib.rs lines 331-333):
`(*pos / self.chunk_size).floor().as_ivec3()`. -/
def get_chunk_pos (m : ChunkManager) (pos : Vec3) : IVec3 :=
  ((pos / m.chunk_size).floor).as_ivec3

/-- `ChunkManager::get_chunk` (src/lib.rs lines 336-338). -/
def get_chunk (m : ChunkManager) (chunk_pos : IVec3) : Option ℕ :=
  m.chunks chunk_pos

/-- `ChunkManager::get_chunk_form_pos` (src/lib.rs lines 341-343). -/
def get_chunk_form_pos (m : ChunkManager) (pos : Vec3) : Option ℕ :=
  m.get_chunk (m.get_chunk_pos pos)

/-- `ChunkManager::is_loaded` (src/lib.rs lines 346-348):
`HashMap::contains_key`. -/
def is_loaded (m : ChunkManager) (chunk_pos : IVec3) : Bool :=
  (m.chunks chunk_pos).isSome

end ChunkManager

/-- The pure floor-division world-to-chunk map, written as the spec's §4.1
words state it: `floor(world_pos / chunk_size)` componentwise, truncating
toward negative infinity.  Used to compare against the code's two-step
`floor().as_ivec3()` computation. -/
def to_chunk_coord (pos chunk_size : Vec3) : IVec3 :=
  ⟨⌊pos.x / chunk_size.x⌋, ⌊pos.y / chunk_size.y⌋, ⌊pos.z / chunk_size.z⌋⟩

/-- The spec's §4.1 `to_world_origin`: `coord * chunk_size` componentwise. -/
def to_world_origin (coord : IVec3) (chunk_size : Vec3) : Vec3 :=
  coord.as_vec3 * chunk_size

/-- Componentwise unfolding of `Vec3` multiplication. -/
theorem Vec3.mul_def (a b : Vec3) :
    a * b = ⟨a.x * b.x, a.y * b.y, a.z * b.z⟩ := rfl

/-- Truncation toward zero of an integer-valued rational is that integer. -/
theorem truncToZero_intCast (n : ℤ) : Vec3.truncToZero (n : ℚ) = n := by
  unfold Vec3.truncToZero
  split <;> simp

/-- `floor().as_ivec3()` collapses to componentwise integer floor. -/
theorem floor_as_ivec3 (v : Vec3) :
    v.floor.as_ivec3 = ⟨⌊v.x⌋, ⌊v.y⌋, ⌊v.z⌋⟩ := by
  simp [Vec3.floor, Vec3.as_ivec3, truncToZero_intCast]

/-- The code's two-step `floor().as_ivec3()` computation in `get_chunk_pos`
agrees with the componentwise floor of the division. -/
theorem get_chunk_pos_eq (m : ChunkManager) (p : Vec3) :
    m.get_chunk_pos p = to_chunk_coord p m.chunk_size := by
  simp [ChunkManager.get_chunk_pos, to_chunk_coord, floor_as_ivec3,
    HDiv.hDiv, Div.div, Vec3.div]

/-- C1: `get_chunk_pos` computes `floor(world_pos / chunk_size)`
componentwise, truncating toward negative infinity; in particular with
chunk size `(10,10,10)` world position `(-1,-1,-1)` maps to chunk
coordinate `(-1,-1,-1)` and `(-10,0,0)` maps to `(-1,0,0)`. -/
theorem get_chunk_pos_is_floor_div :
    (∀ (m : ChunkManager) (p : Vec3),
      m.get_chunk_pos p = to_chunk_coord p m.chunk_size) ∧
    (ChunkManager.new ⟨10, 10, 10⟩).get_chunk_pos ⟨-1, -1, -1⟩ = ⟨-1, -1, -1⟩ ∧
    (ChunkManager.new ⟨10, 10, 10⟩).get_chunk_pos ⟨-10, 0, 0⟩ = ⟨-1, 0, 0⟩ := by
  refine ⟨get_chunk_pos_eq, ?_, ?_⟩ <;>
    · rw [get_chunk_pos_eq]
      simp only [to_chunk_coord, ChunkManager.new]
      norm_num

/-! ## Component hooks and systems -/

/-- Hook `on_add_chunk` (src/lib.rs lines 193-208): if a chunk is already
loaded at the position a warning is logged and the hook returns without
registering the new chunk; otherwise the new entity is inserted.  The
returned `Bool` records whether the warning branch was taken. -/
def on_add_chunk (m : ChunkManager) (chunk_pos : IVec3) (entity : ℕ) :
    Bool × ChunkManager :=
  if m.is_loaded chunk_pos then (true, m)
  else (false, (m.insert chunk_pos entity).2)

/-- Hook `on_remove_chunk` (src/lib.rs lines 211-217). -/
def on_remove_chunk (m : ChunkManager) (chunk_pos : IVec3) : ChunkManager :=
  (m.remove chunk_pos).2

/-- Hook `on_add_chunk_pos` (src/lib.rs lines 248-253): returns the
translation written into the entity's `Transform`:
`chunk_pos.as_vec3() * chunk_size`. -/
def on_add_chunk_pos (m : ChunkManager) (chunk_pos : IVec3) : Vec3 :=
  chunk_pos.as_vec3 * m.chunk_size

/-- The ascending inclusive integer range of Rust `a..=b` (empty when
`b < a`). -/
def intRangeIncl (a b : ℤ) : List ℤ :=
  (List.range (b + 1 - a).toNat).map (fun (i : ℕ) => a + (i : ℤ))

/-- The full candidate box enumerated by the three nested loops of the
`chunk_loader` system for one observer: every `in_chunk + (x, y, z)` with
each offset ranging over `-radius..=radius`, in loop order. -/
def loader_candidates (in_chunk radius : IVec3) : List IVec3 :=
  (intRangeIncl (-radius.x) radius.x).flatMap fun x =>
    (intRangeIncl (-radius.y) radius.y).flatMap fun y =>
      (intRangeIncl (-radius.z) radius.z).map fun z =>
        in_chunk + (⟨x, y, z⟩ : IVec3)

/-- The loop body of `chunk_loader` (src/lib.rs lines 394-403) for one
observer with known `in_chunk`: spawn `(Chunk, ChunkPos(target_chunk))`
for every box offset whose target is not yet loaded.  The manager is only
read (`Res<ChunkManager>`), so the spawned coordinates are returned as the
list of deferred `commands.spawn` calls, in loop order. -/
def chunk_loader_requests_at (m : ChunkManager) (in_chunk radius : IVec3) :
    List IVec3 :=
  (intRangeIncl (-radius.x) radius.x).flatMap fun x =>
    (intRangeIncl (-radius.y) radius.y).flatMap fun y =>
      (intRangeIncl (-radius.z) radius.z).filterMap fun z =>
        let target_chunk := in_chunk + (⟨x, y, z⟩ : IVec3)
        if m.is_loaded target_chunk then none else some target_chunk

/-- One iteration of `chunk_loader`'s outer observer loop
(src/lib.rs lines 391-393): compute `in_chunk` from the observer's
translation, then run the box loops. -/
def chunk_loader_observer (m : ChunkManager) (loading_radius : IVec3)
    (translation : Vec3) : List IVec3 :=
  chunk_loader_requests_at m (m.get_chunk_pos translation) loading_radius

/-- The `chunk_loader` system (src/lib.rs lines 386-405): one pass over all
observers `(ChunkLoader radius, GlobalTransform translation)`.  The
`ChunkManager` resource is immutable during the pass and `commands.spawn`
is deferred, so every observer sees the same registry state; the result is
the concatenated list of spawned chunk coordinates. -/
def chunk_loader (m : ChunkManager) (observers : List (IVec3 × Vec3)) :
    List IVec3 :=
  observers.flatMap fun o => chunk_loader_observer m o.1 o.2

/-! ## Bulk-spawn helpers -/

/-- `helpers::spawn_chunks_rect` (src/lib.rs lines 107-131): orders each
component pair, then spawns every coordinate of the inclusive box in loop
order. -/
def spawn_chunks_rect (chunk_pos_0 chunk_pos_1 : IVec3) : List IVec3 :=
  let xs := if chunk_pos_0.x > chunk_pos_1.x then (chunk_pos_1.x, chunk_pos_0.x)
            else (chunk_pos_0.x, chunk_pos_1.x)
  let ys := if chunk_pos_0.y > chunk_pos_1.y then (chunk_pos_1.y, chunk_pos_0.y)
            else (chunk_pos_0.y, chunk_pos_1.y)
  let zs := if chunk_pos_0.z > chunk_pos_1.z then (chunk_pos_1.z, chunk_pos_0.z)
            else (chunk_pos_0.z, chunk_pos_1.z)
  (intRangeIncl xs.1 xs.2).flatMap fun x =>
    (intRangeIncl ys.1 ys.2).flatMap fun y =>
      (intRangeIncl zs.1 zs.2).map fun z => (⟨x, y, z⟩ : IVec3)

/-- `helpers::spawn_chunks_rect_from_world_pos` (src/lib.rs lines 152-160):
floors the two world positions, casts them to integer vectors, and passes
them directly to `spawn_chunks_rect` as chunk positions (no division by any
chunk size; the function has no access to a `ChunkManager`). -/
def spawn_chunks_rect_from_world_pos (chunk_pos_0 chunk_pos_1 : Vec3) :
    List IVec3 :=
  spawn_chunks_rect chunk_pos_0.floor.as_ivec3 chunk_pos_1.floor.as_ivec3

/-! ## Registry operation sequences (for the registry invariant) -/

/-- One registry-affecting operation, as driven by the component hooks. -/
inductive RegistryOp where
  | insert (pos : IVec3) (id : ℕ)
  | remove (pos : IVec3)
deriving DecidableEq, Repr

/-- The coordinate an operation affects. -/
def RegistryOp.target : RegistryOp → IVec3
  | .insert p _ => p
  | .remove p => p

/-- Run one operation against the manager (discarding returned values). -/
def applyOp (m : ChunkManager) : RegistryOp → ChunkManager
  | .insert p id => (m.insert p id).2
  | .remove p => (m.remove p).2

/-- Run a sequence of operations left to right. -/
def applyOps (m : ChunkManager) (ops : List RegistryOp) : ChunkManager :=
  ops.foldl applyOp m

/-- The most recent operation of the sequence affecting coordinate `c`. -/
def lastWrite (ops : List RegistryOp) (c : IVec3) : Option RegistryOp :=
  (ops.filter (fun op => op.target = c)).getLast?

/-! ## Supporting lemmas about ranges and the loader box -/

@[simp] theorem IVec3.add_def (a b : IVec3) :
    a + b = ⟨a.x + b.x, a.y + b.y, a.z + b.z⟩ := rfl

theorem mem_intRangeIncl {a b c : ℤ} : c ∈ intRangeIncl a b ↔ a ≤ c ∧ c ≤ b := by
  unfold intRangeIncl
  rw [List.mem_map]
  constructor
  · rintro ⟨i, hi, rfl⟩
    rw [List.mem_range] at hi
    omega
  · rintro ⟨h1, h2⟩
    refine ⟨(c - a).toNat, ?_, ?_⟩
    · rw [List.mem_range]
      omega
    · omega

theorem length_intRangeIncl (a b : ℤ) :
    (intRangeIncl a b).length = (b + 1 - a).toNat := by
  unfold intRangeIncl
  rw [List.length_map, List.length_range]

theorem nodup_intRangeIncl (a b : ℤ) : (intRangeIncl a b).Nodup := by
  unfold intRangeIncl
  refine List.Nodup.map ?_ (List.nodup_range _)
  intro i j h
  have h2 : a + (i : ℤ) = a + (j : ℤ) := h
  omega

theorem length_flatMap_const {α β : Type} (l : List α) (f : α → List β) (n : ℕ)
    (h : ∀ a ∈ l, (f a).length = n) : (l.flatMap f).length = l.length * n := by
  induction l with
  | nil => simp
  | cons a l ih =>
    simp only [List.flatMap_cons, List.length_append, List.length_cons]
    rw [h a (by simp), ih (fun a ha => h a (by simp [ha]))]
    ring

theorem filterMap_guard_eq_filter_map {α β : Type} (f : α → β) (p : β → Bool)
    (l : List α) :
    (l.filterMap fun z => if p (f z) then none else some (f z))
      = (l.map f).filter (fun c => !p c) := by
  induction l with
  | nil => rfl
  | cons a l ih =>
    simp only [List.filterMap_cons, List.map_cons, List.filter_cons]
    by_cases h : p (f a) <;> simp [h, ih]

theorem mem_loader_candidates {ic r c : IVec3} :
    c ∈ loader_candidates ic r ↔
      (ic.x - r.x ≤ c.x ∧ c.x ≤ ic.x + r.x ∧
       ic.y - r.y ≤ c.y ∧ c.y ≤ ic.y + r.y ∧
       ic.z - r.z ≤ c.z ∧ c.z ≤ ic.z + r.z) := by
  rcases ic with ⟨ix, iy, iz⟩
  rcases r with ⟨rx, ry, rz⟩
  rcases c with ⟨cx, cy, cz⟩
  simp only [loader_candidates, List.mem_flatMap, List.mem_map, mem_intRangeIncl,
    IVec3.add_def, IVec3.mk.injEq]
  constructor
  · rintro ⟨x, hx, y, hy, z, hz, hex, hey, hez⟩
    omega
  · rintro ⟨h1, h2, h3, h4, h5, h6⟩
    exact ⟨cx - ix, by omega, cy - iy, by omega, cz - iz, by omega, by omega, by omega, by omega⟩

theorem length_loader_candidates (ic r : IVec3) :
    (loader_candidates ic r).length
      = (r.x + 1 - (-r.x)).toNat * ((r.y + 1 - (-r.y)).toNat * (r.z + 1 - (-r.z)).toNat) := by
  unfold loader_candidates
  rw [length_flatMap_const _ _ ((r.y + 1 - (-r.y)).toNat * (r.z + 1 - (-r.z)).toNat)
      (fun x _ => ?_), length_intRangeIncl]
  rw [length_flatMap_const _ _ ((r.z + 1 - (-r.z)).toNat) (fun y _ => ?_),
    length_intRangeIncl]
  rw [List.length_map, length_intRangeIncl]

theorem nodup_loader_candidates (ic r : IVec3) : (loader_candidates ic r).Nodup := by
  unfold loader_candidates
  rw [List.nodup_flatMap]
  constructor
  · intro x _
    rw [List.nodup_flatMap]
    constructor
    · intro y _
      refine List.Nodup.map ?_ (nodup_intRangeIncl _ _)
      intro z1 z2 h
      simp only [IVec3.add_def, IVec3.mk.injEq] at h
      omega
    · refine List.Pairwise.imp ?_ (nodup_intRangeIncl (-r.y) r.y)
      intro y1 y2 hne
      simp only [Function.onFun, List.Disjoint]
      rintro a ha1 ha2
      rcases a with ⟨a1, a2, a3⟩
      simp only [List.mem_map, IVec3.add_def, IVec3.mk.injEq] at ha1 ha2
      obtain ⟨z1, _, _, h1, _⟩ := ha1
      obtain ⟨z2, _, _, h2, _⟩ := ha2
      exact hne (by omega)
  · refine List.Pairwise.imp ?_ (nodup_intRangeIncl (-r.x) r.x)
    intro x1 x2 hne
    simp only [Function.onFun, List.Disjoint]
    rintro a ha1 ha2
    rcases a with ⟨a1, a2, a3⟩
    simp only [List.mem_flatMap, List.mem_map, IVec3.add_def, IVec3.mk.injEq] at ha1 ha2
    obtain ⟨y1, _, z1, _, h1, _, _⟩ := ha1
    obtain ⟨y2, _, z2, _, h2, _, _⟩ := ha2
    exact hne (by omega)

theorem requests_eq_filter (m : ChunkManager) (ic r : IVec3) :
    chunk_loader_requests_at m ic r
      = (loader_candidates ic r).filter (fun c => !m.is_loaded c) := by
  unfold chunk_loader_requests_at loader_candidates
  rw [List.filter_flatMap]
  refine congrArg _ (funext fun x => ?_)
  rw [List.filter_flatMap]
  refine congrArg _ (funext fun y => ?_)
  exact filterMap_guard_eq_filter_map (fun z => ic + (⟨x, y, z⟩ : IVec3))
    (fun c => m.is_loaded c) _

theorem nodup_chunk_loader_observer (m : ChunkManager) (r : IVec3) (t : Vec3) :
    (chunk_loader_observer m r t).Nodup := by
  unfold chunk_loader_observer
  rw [requests_eq_filter]
  exact (nodup_loader_candidates _ _).filter _

/-! ## Supporting lemmas about operation sequences -/

theorem lastWrite_cons (op : RegistryOp) (ops : List RegistryOp) (c : IVec3) :
    lastWrite (op :: ops) c
      = match lastWrite ops c with
        | some w => some w
        | none => if op.target = c then some op else none := by
  unfold lastWrite
  rw [List.filter_cons]
  by_cases h : op.target = c
  · rw [if_pos (by simp [h])]
    cases hf : (ops.filter (fun op => decide (op.target = c))) with
    | nil => simp [h]
    | cons b l =>
      rw [List.getLast?_cons_cons]
      cases hg : (b :: l).getLast? with
      | none => simp at hg
      | some w => rfl
  · rw [if_neg (by simp [h])]
    cases hf : (ops.filter (fun op => decide (op.target = c))) with
    | nil => simp [h]
    | cons b l =>
      cases hg : (b :: l).getLast? with
      | none => simp at hg
      | some w => rfl

theorem lastWrite_target (ops : List RegistryOp) (c : IVec3) (w : RegistryOp)
    (h : lastWrite ops c = some w) : w.target = c := by
  unfold lastWrite at h
  obtain ⟨hne, hw⟩ := List.mem_getLast?_eq_getLast (Option.mem_def.mpr h)
  have hmem : w ∈ ops.filter (fun op => decide (op.target = c)) :=
    hw ▸ List.getLast_mem hne
  have := List.of_mem_filter hmem
  simpa using this

theorem chunks_applyOps (ops : List RegistryOp) (m : ChunkManager) (c : IVec3) :
    (applyOps m ops).chunks c
      = (match lastWrite ops c with
         | some (.insert _ id) => some id
         | some (.remove _) => none
         | none => m.chunks c) := by
  induction ops generalizing m with
  | nil => rfl
  | cons op ops ih =>
    have hstep : applyOps m (op :: ops) = applyOps (applyOp m op) ops := rfl
    rw [hstep, ih, lastWrite_cons]
    cases hl : lastWrite ops c with
    | some w => cases w <;> rfl
    | none =>
      by_cases h : op.target = c
      · subst h
        cases op with
        | insert p id => simp [applyOp, ChunkManager.insert, RegistryOp.target]
        | remove p => simp [applyOp, ChunkManager.remove, RegistryOp.target]
      · cases op with
        | insert p id =>
          have hcp : ¬ p = c := fun hc => h (by simp [RegistryOp.target, hc])
          have hpc : ¬ c = p := fun hc => hcp hc.symm
          simp [applyOp, ChunkManager.insert, RegistryOp.target, hcp, hpc]
        | remove p =>
          have hcp : ¬ p = c := fun hc => h (by simp [RegistryOp.target, hc])
          have hpc : ¬ c = p := fun hc => hcp hc.symm
          simp [applyOp, ChunkManager.remove, RegistryOp.target, hcp, hpc]

/-! ## Claim theorems: registry semantics -/

/-- C7: after any finite sequence of insert/remove operations starting from
a fresh registry, `is_loaded c` holds iff the most recent operation
affecting `c` was an insert not yet followed by a remove; and a coordinate
is loaded iff an occupant is currently registered at it. -/
theorem is_loaded_iff_last_op_insert (s : Vec3) (ops : List RegistryOp) (c : IVec3) :
    ((applyOps (ChunkManager.new s) ops).is_loaded c = true ↔
      ∃ e, lastWrite ops c = some (RegistryOp.insert c e)) ∧
    (∀ m : ChunkManager, m.is_loaded c = true ↔ ∃ e, m.get_chunk c = some e) := by
  constructor
  · rw [ChunkManager.is_loaded, chunks_applyOps]
    cases hl : lastWrite ops c with
    | none => simp [ChunkManager.new]
    | some w =>
      have ht := lastWrite_target ops c w hl
      cases w with
      | insert p id =>
        have hp : p = c := by simpa [RegistryOp.target] using ht
        subst hp
        simp
      | remove p => simp
  · intro m
    rw [ChunkManager.is_loaded, ChunkManager.get_chunk, Option.isSome_iff_exists]

/-- C8: a second insert at an occupied coordinate returns the prior
occupant, and a subsequent get returns the new occupant. -/
theorem insert_insert_get (m : ChunkManager) (c : IVec3) (a b : ℕ) :
    (((m.insert c a).2).insert c b).1 = some a ∧
    ((((m.insert c a).2).insert c b).2).get_chunk c = some b := by
  constructor
  · simp [ChunkManager.insert]
  · simp [ChunkManager.insert, ChunkManager.get_chunk]

/-- C3 counterexample: creating a chunk at an occupied coordinate does NOT
overwrite the registry with the new occupant.  After entity `1` occupies
`(0,0,0)`, running the `on_add_chunk` hook for entity `2` at the same
coordinate leaves entity `1` registered, so the mapping is not the new
occupant `2`. -/
theorem on_add_chunk_no_overwrite_cex :
    ((on_add_chunk
        (on_add_chunk (ChunkManager.new ⟨10, 10, 10⟩) ⟨0, 0, 0⟩ 1).2
        ⟨0, 0, 0⟩ 2).2).get_chunk ⟨0, 0, 0⟩ = some 1 ∧
    ¬ (((on_add_chunk
        (on_add_chunk (ChunkManager.new ⟨10, 10, 10⟩) ⟨0, 0, 0⟩ 1).2
        ⟨0, 0, 0⟩ 2).2).get_chunk ⟨0, 0, 0⟩ = some 2) := by
  constructor
  · decide
  · decide

/-- C3 amended: when a chunk object is created at an occupied coordinate,
the conflict is detected and reported as a warning, and the EXISTING
occupant wins: the hook returns without registering the new chunk, leaving
the registry unchanged. -/
theorem on_add_chunk_conflict_keeps_existing (m : ChunkManager) (c : IVec3)
    (e : ℕ) (h : m.is_loaded c = true) :
    (on_add_chunk m c e).1 = true ∧ (on_add_chunk m c e).2 = m := by
  rw [on_add_chunk, if_pos h]
  exact ⟨rfl, rfl⟩

theorem on_add_chunk_conflict_keeps_existing_witness :
    (((ChunkManager.new ⟨10, 10, 10⟩).insert ⟨0, 0, 0⟩ 1).2.is_loaded ⟨0, 0, 0⟩
        = true) ∧
    ((on_add_chunk ((ChunkManager.new ⟨10, 10, 10⟩).insert ⟨0, 0, 0⟩ 1).2
        ⟨0, 0, 0⟩ 2).1 = true ∧
     (on_add_chunk ((ChunkManager.new ⟨10, 10, 10⟩).insert ⟨0, 0, 0⟩ 1).2
        ⟨0, 0, 0⟩ 2).2 = ((ChunkManager.new ⟨10, 10, 10⟩).insert ⟨0, 0, 0⟩ 1).2) :=
  ⟨by decide, on_add_chunk_conflict_keeps_existing _ _ _ (by decide)⟩

/-- C4 counterexample: `ChunkManager::new` accepts a chunk size with
non-positive components and produces a registry holding it, so a registry
value with a non-positive chunk-size component does exist. -/
theorem new_accepts_nonpositive_cex :
    (ChunkManager.new ⟨0, -1, 10⟩).chunk_size = ⟨0, -1, 10⟩ ∧
    ¬ (0 < (ChunkManager.new ⟨0, -1, 10⟩).chunk_size.x) ∧
    ¬ (0 < (ChunkManager.new ⟨0, -1, 10⟩).chunk_size.y) := by
  refine ⟨rfl, ?_, ?_⟩ <;> norm_num [ChunkManager.new]

/-- C4 amended: the constructor performs no validation: for every chunk
size, including non-positive ones, it totally constructs a registry with
exactly that chunk size and an empty chunk map. -/
theorem new_total_no_validation (s : Vec3) (c : IVec3) :
    (ChunkManager.new s).chunk_size = s ∧
    (ChunkManager.new s).get_chunk c = none ∧
    (ChunkManager.new s).is_loaded c = false :=
  ⟨rfl, rfl, rfl⟩

/-! ## Claim theorems: coordinate mapping and the loader box -/

/-- C5: for a non-negative radius the loader's candidate set is exactly the
axis-aligned box around the observer's center chunk, of size
`(2rx+1)(2ry+1)(2rz+1)`, a creation request is issued exactly for the
candidates not already loaded, and the concrete observer at `(0,0,0)` with
chunk size `(10,10,10)` and radius `(1,0,1)` requests exactly the 9
coordinates of the 3x1x3 box centered at the origin. -/
theorem chunk_loader_box_semantics (m : ChunkManager) (r : IVec3) (t : Vec3)
    (hx : 0 ≤ r.x) (hy : 0 ≤ r.y) (hz : 0 ≤ r.z) :
    (∀ c : IVec3, c ∈ loader_candidates (m.get_chunk_pos t) r ↔
      ((m.get_chunk_pos t).x - r.x ≤ c.x ∧ c.x ≤ (m.get_chunk_pos t).x + r.x ∧
       (m.get_chunk_pos t).y - r.y ≤ c.y ∧ c.y ≤ (m.get_chunk_pos t).y + r.y ∧
       (m.get_chunk_pos t).z - r.z ≤ c.z ∧ c.z ≤ (m.get_chunk_pos t).z + r.z)) ∧
    ((loader_candidates (m.get_chunk_pos t) r).length : ℤ)
        = (2 * r.x + 1) * ((2 * r.y + 1) * (2 * r.z + 1)) ∧
    (∀ c : IVec3, c ∈ chunk_loader_observer m r t ↔
      (c ∈ loader_candidates (m.get_chunk_pos t) r ∧ m.is_loaded c = false)) ∧
    chunk_loader_observer (ChunkManager.new ⟨10, 10, 10⟩) ⟨1, 0, 1⟩ ⟨0, 0, 0⟩
      = [⟨-1, 0, -1⟩, ⟨-1, 0, 0⟩, ⟨-1, 0, 1⟩, ⟨0, 0, -1⟩, ⟨0, 0, 0⟩,
         ⟨0, 0, 1⟩, ⟨1, 0, -1⟩, ⟨1, 0, 0⟩, ⟨1, 0, 1⟩] := by
  refine ⟨fun c => mem_loader_candidates, ?_, fun c => ?_, ?_⟩
  · have e1 : ((r.x + 1 - -r.x).toNat : ℤ) = 2 * r.x + 1 := by omega
    have e2 : ((r.y + 1 - -r.y).toNat : ℤ) = 2 * r.y + 1 := by omega
    have e3 : ((r.z + 1 - -r.z).toNat : ℤ) = 2 * r.z + 1 := by omega
    rw [length_loader_candidates]
    push_cast
    rw [e1, e2, e3]
  · unfold chunk_loader_observer
    rw [requests_eq_filter, List.mem_filter]
    simp only [Bool.not_eq_true']
  · have hcenter : (ChunkManager.new ⟨10, 10, 10⟩).get_chunk_pos ⟨0, 0, 0⟩
        = ⟨0, 0, 0⟩ := by
      rw [get_chunk_pos_eq]
      simp only [to_chunk_coord, ChunkManager.new]
      norm_num
    unfold chunk_loader_observer
    rw [hcenter]
    decide

theorem chunk_loader_box_semantics_witness :
    ((0 : ℤ) ≤ (⟨1, 0, 1⟩ : IVec3).x) ∧
    chunk_loader_observer (ChunkManager.new ⟨10, 10, 10⟩) ⟨1, 0, 1⟩ ⟨0, 0, 0⟩
      = [⟨-1, 0, -1⟩, ⟨-1, 0, 0⟩, ⟨-1, 0, 1⟩, ⟨0, 0, -1⟩, ⟨0, 0, 0⟩,
         ⟨0, 0, 1⟩, ⟨1, 0, -1⟩, ⟨1, 0, 0⟩, ⟨1, 0, 1⟩] :=
  ⟨by decide,
   (chunk_loader_box_semantics (ChunkManager.new ⟨10, 10, 10⟩) ⟨1, 0, 1⟩ ⟨0, 0, 0⟩
     (by decide) (by decide) (by decide)).2.2.2⟩

/-- C6: converting a chunk coordinate's world-space origin back through
`get_chunk_pos` returns the same coordinate, for every chunk size with
positive components. -/
theorem to_chunk_coord_to_world_origin (m : ChunkManager) (c : IVec3)
    (hx : 0 < m.chunk_size.x) (hy : 0 < m.chunk_size.y)
    (hz : 0 < m.chunk_size.z) :
    m.get_chunk_pos (to_world_origin c m.chunk_size) = c := by
  rw [get_chunk_pos_eq]
  rcases c with ⟨cx, cy, cz⟩
  simp only [to_world_origin, IVec3.as_vec3, Vec3.mul_def,
    to_chunk_coord, IVec3.mk.injEq]
  refine ⟨?_, ?_, ?_⟩
  · rw [mul_div_cancel_right₀ _ (ne_of_gt hx)]
    exact Int.floor_intCast cx
  · rw [mul_div_cancel_right₀ _ (ne_of_gt hy)]
    exact Int.floor_intCast cy
  · rw [mul_div_cancel_right₀ _ (ne_of_gt hz)]
    exact Int.floor_intCast cz

theorem to_chunk_coord_to_world_origin_witness :
    (0 < (ChunkManager.new ⟨10, 10, 10⟩).chunk_size.x) ∧
    (ChunkManager.new ⟨10, 10, 10⟩).get_chunk_pos
        (to_world_origin ⟨-3, 5, 7⟩ (ChunkManager.new ⟨10, 10, 10⟩).chunk_size)
      = ⟨-3, 5, 7⟩ :=
  ⟨by decide,
   to_chunk_coord_to_world_origin (ChunkManager.new ⟨10, 10, 10⟩) ⟨-3, 5, 7⟩
     (by decide) (by decide) (by decide)⟩

/-! ## Claim theorems: loader pass behaviour across observers -/

/-- C2 counterexample: two observers whose boxes overlap both request the
same missing coordinate in a single pass.  The `ChunkManager` resource is
only read during the pass and the spawns are deferred commands, so the
second observer's `is_loaded` check does not see the first observer's
request: coordinate `(0,0,0)` is requested twice. -/
theorem chunk_loader_double_request_cex :
    1 < List.count (⟨0, 0, 0⟩ : IVec3)
        (chunk_loader (ChunkManager.new ⟨10, 10, 10⟩)
          [(⟨1, 0, 1⟩, ⟨0, 0, 0⟩), (⟨0, 0, 0⟩, ⟨5, 5, 5⟩)]) := by
  have h1 : (ChunkManager.new ⟨10, 10, 10⟩).get_chunk_pos ⟨0, 0, 0⟩ = ⟨0, 0, 0⟩ := by
    rw [get_chunk_pos_eq]
    simp only [to_chunk_coord, ChunkManager.new]
    norm_num
  have h2 : (ChunkManager.new ⟨10, 10, 10⟩).get_chunk_pos ⟨5, 5, 5⟩ = ⟨0, 0, 0⟩ := by
    rw [get_chunk_pos_eq]
    simp only [to_chunk_coord, ChunkManager.new]
    norm_num
  simp only [chunk_loader, List.flatMap_cons, List.flatMap_nil,
    chunk_loader_observer, h1, h2]
  decide

/-- C2 amended: within a single loader pass each missing coordinate is
requested at most once PER OBSERVER (each observer's request list has no
duplicates), and across the pass a coordinate is requested exactly once for
every observer whose request set contains it — so overlapping observers
each issue their own request for a shared missing coordinate. -/
theorem chunk_loader_once_per_observer (m : ChunkManager)
    (observers : List (IVec3 × Vec3)) (c : IVec3) :
    (∀ (r : IVec3) (t : Vec3), (chunk_loader_observer m r t).Nodup) ∧
    List.count c (chunk_loader m observers)
      = List.countP (fun o => decide (c ∈ chunk_loader_observer m o.1 o.2))
          observers := by
  refine ⟨nodup_chunk_loader_observer m, ?_⟩
  induction observers with
  | nil => rfl
  | cons o os ih =>
    have hstep : chunk_loader m (o :: os)
        = chunk_loader_observer m o.1 o.2 ++ chunk_loader m os := by
      simp [chunk_loader]
    rw [hstep, List.count_append, ih, List.countP_cons,
      List.count_eq_of_nodup (nodup_chunk_loader_observer m o.1 o.2)]
    by_cases hc : c ∈ chunk_loader_observer m o.1 o.2
    · simp [hc, Nat.add_comm]
    · simp [hc]

/-! ## Claim theorems: transform sync and end-to-end scenario -/

/-- C9: attaching a chunk coordinate sets the object's translation to the
chunk's world-space origin `coord * chunk_size`; end to end with chunk size
`(10,10,10)`, an observer at `(15,5,23)` with radius `(0,0,0)` requests
exactly coordinate `(1,0,2)`, after creation `get_chunk_form_pos((15,5,23))`
returns that occupant, and the chunk's spatial origin is `(10,0,20)`. -/
theorem chunk_transform_end_to_end :
    (∀ (m : ChunkManager) (c : IVec3),
      on_add_chunk_pos m c = to_world_origin c m.chunk_size) ∧
    chunk_loader_observer (ChunkManager.new ⟨10, 10, 10⟩) ⟨0, 0, 0⟩ ⟨15, 5, 23⟩
      = [⟨1, 0, 2⟩] ∧
    (∀ e : ℕ,
      (on_add_chunk (ChunkManager.new ⟨10, 10, 10⟩) ⟨1, 0, 2⟩ e).2.get_chunk_form_pos
        ⟨15, 5, 23⟩ = some e) ∧
    on_add_chunk_pos (ChunkManager.new ⟨10, 10, 10⟩) ⟨1, 0, 2⟩ = ⟨10, 0, 20⟩ := by
  have h1 : (ChunkManager.new ⟨10, 10, 10⟩).get_chunk_pos ⟨15, 5, 23⟩
      = ⟨1, 0, 2⟩ := by
    rw [get_chunk_pos_eq]
    simp only [to_chunk_coord, ChunkManager.new]
    norm_num
  refine ⟨fun m c => rfl, ?_, fun e => ?_, ?_⟩
  · unfold chunk_loader_observer
    rw [h1]
    decide
  · have h2 : (on_add_chunk (ChunkManager.new ⟨10, 10, 10⟩) ⟨1, 0, 2⟩ e).2.get_chunk_pos
        ⟨15, 5, 23⟩ = ⟨1, 0, 2⟩ := by
      rw [get_chunk_pos_eq]
      have hs : (on_add_chunk (ChunkManager.new ⟨10, 10, 10⟩) ⟨1, 0, 2⟩ e).2.chunk_size
          = ⟨10, 10, 10⟩ := rfl
      rw [hs]
      simp only [to_chunk_coord]
      norm_num
    rw [ChunkManager.get_chunk_form_pos, h2]
    simp [on_add_chunk, ChunkManager.new, ChunkManager.is_loaded,
      ChunkManager.insert, ChunkManager.get_chunk]
  · norm_num [on_add_chunk_pos, ChunkManager.new, IVec3.as_vec3, Vec3.mul_def]

/-! ## Claim theorems: bulk-spawn helper -/

theorem mem_spawn_chunks_rect {a b c : IVec3} :
    c ∈ spawn_chunks_rect a b ↔
      (min a.x b.x ≤ c.x ∧ c.x ≤ max a.x b.x ∧
       min a.y b.y ≤ c.y ∧ c.y ≤ max a.y b.y ∧
       min a.z b.z ≤ c.z ∧ c.z ≤ max a.z b.z) := by
  rcases a with ⟨ax, ay, az⟩
  rcases b with ⟨bx, yy, bz⟩
  rcases c with ⟨cx, cy, cz⟩
  simp only [spawn_chunks_rect, List.mem_flatMap, List.mem_map, mem_intRangeIncl,
    IVec3.mk.injEq]
  split_ifs with h1 h2 h3 <;>
    (constructor
     · rintro ⟨x, hx, y, hy, z, hz, rfl, rfl, rfl⟩
       refine ⟨?_, ?_, ?_, ?_, ?_, ?_⟩ <;> omega
     · rintro ⟨g1, g2, g3, g4, g5, g6⟩
       exact ⟨cx, by omega, cy, by omega, cz, by omega, rfl, rfl, rfl⟩)

/-- C10: the helper `spawn_chunks_rect_from_world_pos` spawns chunks exactly
at the integer box spanned by the componentwise floors of the two world
positions taken directly as chunk coordinates — no division by any chunk
size occurs (the helper takes no `ChunkManager`), so the spawned set is
independent of the configured chunk size. -/
theorem spawn_chunks_rect_from_world_pos_floor_box (p0 p1 : Vec3) :
    spawn_chunks_rect_from_world_pos p0 p1
      = spawn_chunks_rect ⟨⌊p0.x⌋, ⌊p0.y⌋, ⌊p0.z⌋⟩ ⟨⌊p1.x⌋, ⌊p1.y⌋, ⌊p1.z⌋⟩ ∧
    (∀ c : IVec3, c ∈ spawn_chunks_rect_from_world_pos p0 p1 ↔
      (min ⌊p0.x⌋ ⌊p1.x⌋ ≤ c.x ∧ c.x ≤ max ⌊p0.x⌋ ⌊p1.x⌋ ∧
       min ⌊p0.y⌋ ⌊p1.y⌋ ≤ c.y ∧ c.y ≤ max ⌊p0.y⌋ ⌊p1.y⌋ ∧
       min ⌊p0.z⌋ ⌊p1.z⌋ ≤ c.z ∧ c.z ≤ max ⌊p0.z⌋ ⌊p1.z⌋)) := by
  have hfl : spawn_chunks_rect_from_world_pos p0 p1
      = spawn_chunks_rect ⟨⌊p0.x⌋, ⌊p0.y⌋, ⌊p0.z⌋⟩ ⟨⌊p1.x⌋, ⌊p1.y⌋, ⌊p1.z⌋⟩ := by
    unfold spawn_chunks_rect_from_world_pos
    rw [floor_as_ivec3, floor_as_ivec3]
  refine ⟨hfl, fun c => ?_⟩
  rw [hfl, mem_spawn_chunks_rect]
